import Mathlib

/-!
# Verification of the chessfluff enrichment pipeline

Shallow embedding of the parts of `jonathanfox5/chessfluff` that the
specification's claims are about:

* `src/src/chessfluff/requester.py` — the rate-limited HTTP client
  (`Requester.get_json`, `Requester._get`, `Requester._wait_rate_limit_timeout`,
  `Requester._set_rate_limit_timeout`);
* `src/scripts/process_openings.py` — the orchestration script
  (`main`, `get_lichess_stats`, `calc_percentage`, `get_variation`,
  `count_moves`).

Python machine-level effects are made explicit: the network is a function
from the attempt index to the outcome of that attempt, exceptions are
modelled as distinguished result constructors, time/sleeping is abstracted
away (it never influences a return value or a state transition other than
the documented reset of the `rate_limited` flag), and log output is not
modelled (it never influences control flow).
-/

/-- A decoded JSON object, as used by the stats endpoints: a finite mapping
from string keys to integers (Python `dict`). Keys are unique in every dict
produced by JSON decoding; an association list looked up front-to-back is a
faithful model. -/
abbrev Dict := List (String × Int)

/-- An HTTP response as seen by `Requester._get`: a status code and a body.
`body = none` models a body that fails to decode as JSON
(`httpx.DecodingError` / `JSONDecodeError` raised by `r.json()`);
`body = some j` models a body decoding to the dict `j`. -/
structure Resp where
  status : Nat
  body : Option Dict
deriving DecidableEq

/-- The outcome of one call to `self._client.get(url, headers)`:
either the call raises `httpx.RequestError` (transport failure), or it
returns a response. -/
inductive NetOutcome where
  | transportError
  | response (r : Resp)
deriving DecidableEq

/-- How the `for _ in range(0, self.rate_limit_attempts)` loop in
`Requester._get` terminates:

* `transportReturn` — the `except httpx.RequestError` branch executed
  `return None` from inside the loop;
* `exited lastR` — the loop finished (by `break` or by exhausting the
  range); `lastR` is the value of the loop-local variable `r` at that
  point, `none` when the loop body never ran and `r` was never bound. -/
inductive LoopExit where
  | transportReturn
  | exited (lastR : Option Resp)
deriving DecidableEq

/-- The retry loop of `Requester._get` (requester.py lines 93–105).

Each iteration first runs `self._wait_rate_limit_timeout()`, which possibly
sleeps and then unconditionally sets `self.rate_limited = False`
(lines 118–130), then issues the network call.  On `httpx.RequestError` the
function returns `None` immediately.  On a 429 response it runs
`self._set_rate_limit_timeout()` (sets `rate_limited = True`, records the
timestamp) and continues; on any other status it breaks.

Arguments: `server` maps the index of a network call to its outcome,
`fuel` is the number of loop iterations remaining, `idx` the number of
network calls issued so far, `limited` the current `self.rate_limited`,
`lastR` the current value of the loop variable `r` (if bound).
Returns the loop exit, the total number of network calls issued, and the
final `rate_limited` flag. -/
def getLoop (server : Nat → NetOutcome) :
    Nat → Nat → Bool → Option Resp → LoopExit × Nat × Bool
  | 0, idx, limited, lastR => (.exited lastR, idx, limited)
  | fuel + 1, idx, _limited, _lastR =>
      -- `_wait_rate_limit_timeout` has run: `rate_limited` is now `False`.
      match server idx with
      | .transportError => (.transportReturn, idx + 1, false)
      | .response r =>
          if r.status == 429 then
            getLoop server fuel (idx + 1) true (some r)
          else
            (.exited (some r), idx + 1, false)

/-- The result of `Requester._get` as observed by its caller. -/
inductive GetOut where
  | retNone
  | ret (r : Resp)
  | unboundLocalError
deriving DecidableEq

/-- `Requester._get` (requester.py lines 79–116).  After the loop the code
unconditionally reads `r.headers` and `r.status_code`; when the loop body
never ran (`rate_limit_attempts = 0`) the local variable `r` is unbound and
this read raises `UnboundLocalError`, modelled by
`GetOut.unboundLocalError`.  Otherwise a non-200 final status yields
`return None` and a 200 status yields the response. -/
def requester_get (server : Nat → NetOutcome) (attempts : Nat) (limited : Bool) :
    GetOut × Nat × Bool :=
  match getLoop server attempts 0 limited none with
  | (.transportReturn, n, lim) => (.retNone, n, lim)
  | (.exited none, n, lim) => (.unboundLocalError, n, lim)
  | (.exited (some r), n, lim) =>
      if r.status == 200 then (.ret r, n, lim) else (.retNone, n, lim)

/-- The result of `Requester.get_json` as observed by its caller:
either a dict is returned normally, or an exception escapes. -/
inductive FetchOut where
  | ok (j : Dict)
  | raised
deriving DecidableEq

/-- `Requester.get_json` (requester.py lines 57–77).  Sets
`self.response_json = {}`, calls `self._get(url)`; when `_get` returned a
(necessarily 200) response it tries to decode the body, catching only the
two JSON-decoding exceptions and returning `{}` on a decode failure; when
`_get` returned `None` the initial `{}` is returned.  The
`UnboundLocalError` from `_get` is not caught and propagates to the
caller.  Returns the outcome, the number of network calls issued, and the
final `rate_limited` flag. -/
def get_json (server : Nat → NetOutcome) (attempts : Nat) (limited : Bool) :
    FetchOut × Nat × Bool :=
  match requester_get server attempts limited with
  | (.retNone, n, lim) => (.ok [], n, lim)
  | (.unboundLocalError, n, lim) => (.raised, n, lim)
  | (.ret r, n, lim) =>
      match r.body with
      | none => (.ok [], n, lim)
      | some j => (.ok j, n, lim)

/-- `calc_percentage` (process_openings.py lines 123–129).  Python computes
`numerator / denominator * 100.0` and catches `ZeroDivisionError`, returning
`0.0`; Python raises `ZeroDivisionError` for a zero denominator in both
integer and float division (it never produces an IEEE NaN or infinity
here), so the handler branch is exactly the `denominator = 0` case.
Arithmetic on the non-zero branch is modelled exactly, over `ℚ`. -/
def calc_percentage (numerator denominator : ℚ) : ℚ :=
  if denominator = 0 then 0 else numerator / denominator * 100

/-- Python `dict.get(key, dflt)` on a decoded JSON object. -/
def dictGet (d : Dict) (key : String) (dflt : Int) : Int :=
  match d.find? (fun p => p.1 == key) with
  | some p => p.2
  | none => dflt

/-- One result row built by the loop body of `get_lichess_stats`
(process_openings.py lines 106–116). -/
structure StatsRow where
  epd : String
  master_games : Int
  master_white_win : ℚ
  master_black_win : ℚ
  master_draw : ℚ
  lichess_games : Int
  lichess_white_win : ℚ
  lichess_black_win : ℚ
  lichess_draw : ℚ
deriving DecidableEq

/-- The loop body of `get_lichess_stats` (process_openings.py lines 96–116):
extract the three counters from each source's decoded response with
`dict.get(key, 0)`, total them, and derive the six percentage fields with
`calc_percentage` (Python's `/` promotes the ints to floats; modelled
over `ℚ`). -/
def statsRowFor (master_stats lichess_game_stats : Dict) (epd : String) : StatsRow :=
  let master_white_games := dictGet master_stats "white" 0
  let master_black_games := dictGet master_stats "black" 0
  let master_draw_games := dictGet master_stats "draws" 0
  let master_total_games := master_white_games + master_black_games + master_draw_games
  let lichess_white_games := dictGet lichess_game_stats "white" 0
  let lichess_black_games := dictGet lichess_game_stats "black" 0
  let lichess_draw_games := dictGet lichess_game_stats "draws" 0
  let lichess_total_games := lichess_white_games + lichess_black_games + lichess_draw_games
  { epd := epd
    master_games := master_total_games
    master_white_win := calc_percentage (master_white_games : ℚ) (master_total_games : ℚ)
    master_black_win := calc_percentage (master_black_games : ℚ) (master_total_games : ℚ)
    master_draw := calc_percentage (master_draw_games : ℚ) (master_total_games : ℚ)
    lichess_games := lichess_total_games
    lichess_white_win := calc_percentage (lichess_white_games : ℚ) (lichess_total_games : ℚ)
    lichess_black_win := calc_percentage (lichess_black_games : ℚ) (lichess_total_games : ℚ)
    lichess_draw := calc_percentage (lichess_draw_games : ℚ) (lichess_total_games : ℚ) }

/-- `get_lichess_stats` (process_openings.py lines 85–120): one result row
per epd, in the order of the `epds` list.  The two API lookups
(`api.get_masters_stats(epd)` and `api.get_opening_stats(epd)`, code not
under `src/`) are parameters: each maps an epd to the dict the call
returned — `get_json`'s contract makes that an empty dict on any absorbed
failure.  The two `time.sleep(1.001)` calls do not affect the result. -/
def get_lichess_stats (epds : List String) (master lichess : String → Dict) :
    List StatsRow :=
  epds.map (fun epd => statsRowFor (master epd) (lichess epd) epd)

/-- One row of the opening catalogue dataframe at the point of the merge
(process_openings.py line 78), i.e. after column selection (line 58) and
the eval column assignment (lines 72–74).  `evalResult` is the
engine's output rendered by `get_eval` (a score or a sentinel); its type
does not matter for the merge. -/
structure OpeningRow where
  eco : String
  family : String
  variation : String
  epd : String
  pgn : String
  move_count : Nat
  evalResult : String
deriving DecidableEq

/-- `df.merge(right=lichess_stats, how="left", left_on="epd",
right_on="epd")` (process_openings.py line 78): for each left row in
order, emit one output row per right row with an equal `epd` key, or a
single row with missing right-hand fields (`none`) when no right row
matches. -/
def leftMerge (left : List OpeningRow) (right : List StatsRow) :
    List (OpeningRow × Option StatsRow) :=
  left.flatMap (fun l =>
    let ms := right.filter (fun s => s.epd == l.epd)
    if ms.isEmpty then [(l, none)] else ms.map (fun s => (l, some s)))

/-- The whitespace class of Python's regex `\s` (ASCII range, which is all
that a pgn string can contain). -/
def isPySpace (c : Char) : Bool :=
  c == ' ' || c == '\t' || c == '\n' || c == '\r' || c == '\x0b' || c == '\x0c'

/-- `re.sub(r"[0-9][.]\s", "", clean_pgn)` (process_openings.py lines
172–174): scan left to right, delete every non-overlapping occurrence of a
digit followed by a period followed by one whitespace character, resuming
after the deleted occurrence. -/
def stripMoveNums : List Char → List Char
  | a :: b :: c :: rest =>
      if a.isDigit && b == '.' && isPySpace c then stripMoveNums rest
      else a :: stripMoveNums (b :: c :: rest)
  | l => l

/-- Python `s.split(sep)` for a one-character separator `sep`: cut at every
occurrence of `sep`, keeping empty parts, so the result always has
(number of occurrences of `sep`) + 1 parts — `"".split(" ") == [""]`. -/
def splitChar (sep : Char) : List Char → List (List Char)
  | [] => [[]]
  | c :: rest =>
      match splitChar sep rest with
      | [] => [[]]
      | t :: ts => if c == sep then [] :: t :: ts else (c :: t) :: ts

/-- `count_moves` (process_openings.py lines 163–178):
`len(re.sub(r"[0-9][.]\s", "", clean_pgn).split(" "))`. -/
def count_moves (clean_pgn : String) : Nat :=
  (splitChar ' ' (stripMoveNums clean_pgn.data)).length

/-- Modelled from the spec (claim C6's own words, for comparison with
`count_moves`): strip every move-number token of the form digit, period,
single space. -/
def specStripMoveNums : List Char → List Char
  | a :: b :: c :: rest =>
      if a.isDigit && b == '.' && c == ' ' then specStripMoveNums rest
      else a :: specStripMoveNums (b :: c :: rest)
  | l => l

/-- Number of maximal runs of non-whitespace characters; the flag records
whether the previous character was inside such a run. -/
def wsTokenCountAux : Bool → List Char → Nat
  | _, [] => 0
  | inTok, c :: rest =>
      if isPySpace c then wsTokenCountAux false rest
      else (if inTok then 0 else 1) + wsTokenCountAux true rest

/-- Modelled from the spec (claim C6's own words): the number of
whitespace-delimited tokens remaining after stripping move-number
tokens. -/
def spec_move_count (s : String) : Nat :=
  wsTokenCountAux false (specStripMoveNums s.data)

/-- Python `s.split(ch)[0]`: the text before the first occurrence of `ch`
(the whole string when `ch` does not occur). -/
def takeUntil (ch : Char) : List Char → List Char
  | [] => []
  | c :: rest => if c == ch then [] else c :: takeUntil ch rest

/-- The family column (process_openings.py line 54):
`name.split(":")[0].split(",")[0]`. -/
def familyOf (name : String) : String :=
  String.mk (takeUntil ',' (takeUntil ':' name.data))

/-- Modelled from the spec (claim C7's own words, for comparison with
`familyOf`): the text of the name before its first `:` or `,`, whichever
occurs first. -/
def familySpec (name : String) : String :=
  String.mk (name.data.takeWhile (fun c => !(c == ':') && !(c == ',')))

/-- Python `s.replace(pat, "")` for a pattern `pat`: delete every
non-overlapping occurrence of `pat`, scanning left to right.  The fuel
argument (always instantiated with the length of the list, which bounds
the number of scanning steps) keeps the recursion structural. -/
def removeAllFuel (pat : List Char) : Nat → List Char → List Char
  | 0, l => l
  | _ + 1, [] => []
  | fuel + 1, c :: rest =>
      if pat.isPrefixOf (c :: rest) && !pat.isEmpty then
        removeAllFuel pat fuel ((c :: rest).drop pat.length)
      else c :: removeAllFuel pat fuel rest

/-- Python `s.replace(pat, "")`. -/
def removeAll (pat l : List Char) : List Char :=
  removeAllFuel pat l.length l

/-- `get_variation` (process_openings.py lines 139–160): `""` when the full
name equals the family, otherwise the full name with every occurrence of
`family + ": "` removed and then every occurrence of `family + ", "`
removed. -/
def get_variation (full_name family : String) : String :=
  if full_name == family then ""
  else
    String.mk (removeAll (family.data ++ [',', ' '])
      (removeAll (family.data ++ [':', ' ']) full_name.data))

/-- One external call issued while processing the catalogue: the Stockfish
evaluation (process_openings.py line 133), the masters-stats lookup
(line 92) or the community-stats lookup (line 94), tagged with the
(0-based) index of the record it belongs to. -/
inductive CallEvent where
  | evalCall (i : Nat)
  | masterCall (i : Nat)
  | communityCall (i : Nat)
deriving DecidableEq

/-- The record a call belongs to. -/
def recordOf : CallEvent → Nat
  | .evalCall i => i
  | .masterCall i => i
  | .communityCall i => i

/-- The evaluation phase of `main` (process_openings.py lines 71–74):
`df.apply(..., axis=1)` calls `get_eval` once per row, in row order. -/
def evalPhase (n : Nat) : List CallEvent :=
  (List.range n).map CallEvent.evalCall

/-- The stats phase (process_openings.py lines 89–94): the
`get_lichess_stats` loop visits the epds in order and issues the
masters-stats call and then the community-stats call for each. -/
def statsPhase (n : Nat) : List CallEvent :=
  (List.range n).flatMap (fun i => [CallEvent.masterCall i, CallEvent.communityCall i])

/-- The full sequence of external calls issued by `main` for a catalogue of
`n` records: line 72 computes the eval column for every row before line 77
starts the stats loop. -/
def mainCallTrace (n : Nat) : List CallEvent :=
  evalPhase n ++ statsPhase n

/-- No call belonging to one record lies strictly between two calls
belonging to another record. -/
def NonInterleaved (tr : List CallEvent) : Prop :=
  ∀ i j k : Fin tr.length,
    i < j → j < k → recordOf (tr.get i) = recordOf (tr.get k) →
    recordOf (tr.get j) = recordOf (tr.get i)

instance (tr : List CallEvent) : Decidable (NonInterleaved tr) := by
  unfold NonInterleaved; infer_instance

/-- A concrete two-record catalogue with distinct epds, used to witness the
batch-level properties. -/
def sampleCatalogue : List OpeningRow :=
  [{ eco := "B00", family := "Kings Pawn Game", variation := "", epd := "epd1",
     pgn := "1. e4", move_count := 1, evalResult := "0.3" },
   { eco := "B20", family := "Sicilian Defense", variation := "", epd := "epd2",
     pgn := "1. e4 c5", move_count := 2, evalResult := "0.1" }]

theorem getLoop_exited_none (server : Nat → NetOutcome) (fuel idx : Nat)
    (lim : Bool) (r0 : Option Resp)
    (h : (getLoop server fuel idx lim r0).1 = LoopExit.exited none) :
    fuel = 0 ∧ r0 = none := by
  induction fuel generalizing idx lim r0 with
  | zero =>
      refine ⟨rfl, ?_⟩
      simpa [getLoop] using h
  | succ n ih =>
      rw [getLoop] at h
      cases hs : server idx with
      | transportError => rw [hs] at h; simp at h
      | response r =>
          rw [hs] at h
          by_cases h429 : r.status == 429
          · simp only [h429, if_true] at h
            obtain ⟨-, h2⟩ := ih _ _ _ h
            simp at h2
          · simp only [h429, if_false] at h
            simp at h

theorem get_json_not_raised (server : Nat → NetOutcome) (k : Nat) (lim : Bool)
    (hk : 1 ≤ k) : (get_json server k lim).1 ≠ FetchOut.raised := by
  intro hr
  unfold get_json requester_get at hr
  rcases hE : getLoop server k 0 lim none with ⟨ex, n, l⟩
  rw [hE] at hr
  rcases ex with _ | r0
  · simp at hr
  · rcases r0 with _ | r
    · have := getLoop_exited_none server k 0 lim none (by rw [hE])
      omega
    · by_cases h200 : r.status == 200 <;> simp [h200] at hr
      rcases hb : r.body with _ | j <;> simp [hb] at hr

/-- Claim C1: for a `Requester` with the default retry budget (3), `get_json`
never raises on a transport failure, a non-success HTTP status, or a JSON
decode failure — each of these returns an empty mapping to the caller.
`requester_get … = .retNone` is exactly the transport-failure /
non-success-status case, and `r.body = none` the decode-failure case. -/
theorem C1_get_json_absorbs_failures (server : Nat → NetOutcome) (limited : Bool) :
    (get_json server 3 limited).1 ≠ FetchOut.raised ∧
    ((requester_get server 3 limited).1 = GetOut.retNone →
      (get_json server 3 limited).1 = FetchOut.ok []) ∧
    (∀ r, (requester_get server 3 limited).1 = GetOut.ret r → r.body = none →
      (get_json server 3 limited).1 = FetchOut.ok []) := by
  refine ⟨get_json_not_raised server 3 limited (by omega), ?_, ?_⟩
  · intro h
    unfold get_json
    rcases hG : requester_get server 3 limited with ⟨g, n, lim⟩
    rw [hG] at h
    simp only at h
    subst h
    simp
  · intro r h hb
    unfold get_json
    rcases hG : requester_get server 3 limited with ⟨g, n, lim⟩
    rw [hG] at h
    simp only at h
    subst h
    simp [hb]

/-- Claim C1 witness: a server whose every attempt is a transport failure. -/
theorem C1_witness :
    (get_json (fun _ => NetOutcome.transportError) 3 false).1 = FetchOut.ok [] :=
  (C1_get_json_absorbs_failures (fun _ => NetOutcome.transportError) false).2.1 (by decide)

/-- Claim C2: with retry budget 3 and a server answering every attempt with
status 429, `get_json` returns the empty mapping after issuing exactly 3
network calls, and no exception escapes. -/
theorem C2_exhausted_retries (server : Nat → NetOutcome) (limited : Bool)
    (h : ∀ i, i < 3 → ∃ b, server i = NetOutcome.response ⟨429, b⟩) :
    (get_json server 3 limited).1 = FetchOut.ok [] ∧
    (get_json server 3 limited).2.1 = 3 := by
  obtain ⟨b0, h0⟩ := h 0 (by omega)
  obtain ⟨b1, h1⟩ := h 1 (by omega)
  obtain ⟨b2, h2⟩ := h 2 (by omega)
  simp [get_json, requester_get, getLoop, h0, h1, h2]

/-- Claim C2 witness: the constant-429 server. -/
theorem C2_witness :
    (get_json (fun _ => NetOutcome.response ⟨429, none⟩) 3 false).1 = FetchOut.ok [] ∧
    (get_json (fun _ => NetOutcome.response ⟨429, none⟩) 3 false).2.1 = 3 :=
  C2_exhausted_retries (fun _ => NetOutcome.response ⟨429, none⟩) false
    (fun _ _ => ⟨none, rfl⟩)

/-- Claim C9: with retry budget ≥ 3 and a server answering 429, 429, then
200 with a decodable JSON body `j`, `get_json` succeeds on the third
attempt (exactly 3 network calls), returns `j`, and the client's
rate-limit state is back to Normal (`rate_limited = false`). -/
theorem C9_success_after_two_429 (k : Nat) (server : Nat → NetOutcome)
    (limited : Bool) (j : Dict) (hk : 3 ≤ k)
    (h0 : ∃ b, server 0 = NetOutcome.response ⟨429, b⟩)
    (h1 : ∃ b, server 1 = NetOutcome.response ⟨429, b⟩)
    (h2 : server 2 = NetOutcome.response ⟨200, some j⟩) :
    get_json server k limited = (FetchOut.ok j, 3, false) := by
  obtain ⟨b0, h0⟩ := h0
  obtain ⟨b1, h1⟩ := h1
  obtain ⟨m, rfl⟩ : ∃ m, k = m + 3 := ⟨k - 3, by omega⟩
  simp [get_json, requester_get, getLoop, h0, h1, h2]

/-- Claim C9 witness: the concrete 429, 429, 200 server. -/
theorem C9_witness :
    get_json
      (fun i => if i ≤ 1 then NetOutcome.response ⟨429, none⟩
                else NetOutcome.response ⟨200, some [("white", 40)]⟩)
      3 false = (FetchOut.ok [("white", 40)], 3, false) :=
  C9_success_after_two_429 3
    (fun i => if i ≤ 1 then NetOutcome.response ⟨429, none⟩
              else NetOutcome.response ⟨200, some [("white", 40)]⟩)
    false [("white", 40)] (by omega) ⟨none, rfl⟩ ⟨none, rfl⟩ rfl

/-- Claim C10: with `rate_limit_attempts = 0` the retry loop body never
runs, so the read of the loop variable after the loop raises
(`UnboundLocalError`) and `get_json` propagates it instead of returning an
empty mapping; with any budget ≥ 1 no exception escapes, so the
never-raises guarantee needs the precondition `rate_limit_attempts ≥ 1`. -/
theorem C10_zero_attempts_raises (server : Nat → NetOutcome) (limited : Bool)
    (k : Nat) :
    (get_json server 0 limited).1 = FetchOut.raised ∧
    (1 ≤ k → (get_json server k limited).1 ≠ FetchOut.raised) := by
  constructor
  · simp [get_json, requester_get, getLoop]
  · intro hk
    exact get_json_not_raised server k limited hk

/-- Claim C10 witness: a concrete server, budgets 0 and 1. -/
theorem C10_witness :
    (get_json (fun _ => NetOutcome.transportError) 0 false).1 = FetchOut.raised ∧
    (get_json (fun _ => NetOutcome.transportError) 1 false).1 ≠ FetchOut.raised :=
  ⟨(C10_zero_attempts_raises (fun _ => NetOutcome.transportError) false 1).1,
   (C10_zero_attempts_raises (fun _ => NetOutcome.transportError) false 1).2 (by omega)⟩

/-- Claim C3: for every pair with a zero denominator, `calc_percentage`
returns exactly 0 — the `ZeroDivisionError` handler makes this total, with
no NaN (Python raises on zero division instead of producing one). -/
theorem C3_calc_percentage_zero (numerator denominator : ℚ)
    (h : denominator = 0) : calc_percentage numerator denominator = 0 := by
  simp [calc_percentage, h]

/-- Claim C3 witness. -/
theorem C3_witness : calc_percentage 7 0 = 0 :=
  C3_calc_percentage_zero 7 0 rfl

theorem statsTriple_sum (w b d : Int) (h : 0 < w + b + d) :
    calc_percentage (w : ℚ) ((w + b + d : Int) : ℚ) +
      calc_percentage (b : ℚ) ((w + b + d : Int) : ℚ) +
      calc_percentage (d : ℚ) ((w + b + d : Int) : ℚ) = 100 := by
  have ht : ((w + b + d : Int) : ℚ) ≠ 0 := by
    exact_mod_cast (by omega : (w + b + d : Int) ≠ 0)
  have hexp : ((w + b + d : Int) : ℚ) = (w : ℚ) + (b : ℚ) + (d : ℚ) := by
    push_cast
    ring
  simp only [calc_percentage, if_neg ht]
  rw [hexp] at ht ⊢
  field_simp
  ring

theorem statsTriple_zero (w b d : Int) (h : w + b + d = 0) :
    calc_percentage (w : ℚ) ((w + b + d : Int) : ℚ) = 0 ∧
    calc_percentage (b : ℚ) ((w + b + d : Int) : ℚ) = 0 ∧
    calc_percentage (d : ℚ) ((w + b + d : Int) : ℚ) = 0 := by
  rw [h]
  simp [calc_percentage]

/-- Claim C8: in every row produced by the stats loop, for each of the two
sources the three derived percentages sum to exactly 100 (over the exact
rational arithmetic of the model) when that source's total game count is
positive, and are all exactly 0 when the total is 0. -/
theorem C8_percentages_sum (master lichess : Dict) (e : String) :
    (0 < (statsRowFor master lichess e).master_games →
      (statsRowFor master lichess e).master_white_win +
        (statsRowFor master lichess e).master_black_win +
        (statsRowFor master lichess e).master_draw = 100) ∧
    ((statsRowFor master lichess e).master_games = 0 →
      (statsRowFor master lichess e).master_white_win = 0 ∧
        (statsRowFor master lichess e).master_black_win = 0 ∧
        (statsRowFor master lichess e).master_draw = 0) ∧
    (0 < (statsRowFor master lichess e).lichess_games →
      (statsRowFor master lichess e).lichess_white_win +
        (statsRowFor master lichess e).lichess_black_win +
        (statsRowFor master lichess e).lichess_draw = 100) ∧
    ((statsRowFor master lichess e).lichess_games = 0 →
      (statsRowFor master lichess e).lichess_white_win = 0 ∧
        (statsRowFor master lichess e).lichess_black_win = 0 ∧
        (statsRowFor master lichess e).lichess_draw = 0) := by
  refine ⟨?_, ?_, ?_, ?_⟩ <;> simp only [statsRowFor] <;> intro h
  · exact statsTriple_sum _ _ _ h
  · exact statsTriple_zero _ _ _ h
  · exact statsTriple_sum _ _ _ h
  · exact statsTriple_zero _ _ _ h

/-- Claim C8 witness: a master response totalling 100 games and an empty
community response. -/
theorem C8_witness :
    ((statsRowFor [("white", 40), ("black", 30), ("draws", 30)] [] "X").master_white_win +
      (statsRowFor [("white", 40), ("black", 30), ("draws", 30)] [] "X").master_black_win +
      (statsRowFor [("white", 40), ("black", 30), ("draws", 30)] [] "X").master_draw = 100) ∧
    ((statsRowFor [("white", 40), ("black", 30), ("draws", 30)] [] "X").lichess_white_win = 0 ∧
      (statsRowFor [("white", 40), ("black", 30), ("draws", 30)] [] "X").lichess_black_win = 0 ∧
      (statsRowFor [("white", 40), ("black", 30), ("draws", 30)] [] "X").lichess_draw = 0) :=
  ⟨(C8_percentages_sum [("white", 40), ("black", 30), ("draws", 30)] [] "X").1 (by decide),
   (C8_percentages_sum [("white", 40), ("black", 30), ("draws", 30)] [] "X").2.2.2 (by decide)⟩

theorem evalPhase_getElem (n i : Nat) (h : i < n) :
    (evalPhase n)[i]? = some (CallEvent.evalCall i) := by
  simp [evalPhase, List.getElem?_range, h]

theorem statsPhase_succ (n : Nat) :
    statsPhase (n + 1) =
      statsPhase n ++ [CallEvent.masterCall n, CallEvent.communityCall n] := by
  simp [statsPhase, List.range_succ]

theorem statsPhase_length (n : Nat) : (statsPhase n).length = 2 * n := by
  induction n with
  | zero => rfl
  | succ m ih =>
      rw [statsPhase_succ]
      simp [ih]
      omega

theorem statsPhase_getElem (n i : Nat) (h : i < n) :
    (statsPhase n)[2 * i]? = some (CallEvent.masterCall i) ∧
    (statsPhase n)[2 * i + 1]? = some (CallEvent.communityCall i) := by
  induction n with
  | zero => omega
  | succ m ih =>
      rw [statsPhase_succ]
      rcases Nat.lt_or_ge i m with him | him
      · have h1 : 2 * i < (statsPhase m).length := by rw [statsPhase_length]; omega
        have h2 : 2 * i + 1 < (statsPhase m).length := by
          rw [statsPhase_length]; omega
        rw [List.getElem?_append, if_pos h1, List.getElem?_append, if_pos h2]
        exact ih him
      · have hi : i = m := by omega
        subst hi
        have h1 : ¬ 2 * i < (statsPhase i).length := by
          rw [statsPhase_length]; omega
        have h2 : ¬ 2 * i + 1 < (statsPhase i).length := by
          rw [statsPhase_length]; omega
        constructor
        · rw [List.getElem?_append, if_neg h1, statsPhase_length]
          simp
        · rw [List.getElem?_append, if_neg h2, statsPhase_length]
          have e : 2 * i + 1 - 2 * i = 1 := by omega
          rw [e]
          simp

/-- Claim C4 counterexample: for a two-record catalogue the second record's
evaluation call is issued between the first record's evaluation call and
the first record's master-stats call, so the per-record call triples are
interleaved across records — `main` evaluates every record before any
stats call is made. -/
theorem C4_counterexample :
    mainCallTrace 2 = [CallEvent.evalCall 0, CallEvent.evalCall 1,
      CallEvent.masterCall 0, CallEvent.communityCall 0,
      CallEvent.masterCall 1, CallEvent.communityCall 1] ∧
    ¬ NonInterleaved (mainCallTrace 2) := ⟨rfl, by decide⟩

/-- Claim C4 (amended): for an `n`-record catalogue, record `i`'s
evaluation call is the `i`-th external call, its master-stats call is call
`n + 2i` and its community-stats call is call `n + 2i + 1`: within each
record the order evaluate → master → community holds and the two stats
calls of different records are never interleaved, but all evaluation calls
precede all stats calls, so evaluation calls of later records occur
between an earlier record's evaluation and its stats calls. -/
theorem C4_amended_call_positions (n i : Nat) (h : i < n) :
    (mainCallTrace n)[i]? = some (CallEvent.evalCall i) ∧
    (mainCallTrace n)[n + 2 * i]? = some (CallEvent.masterCall i) ∧
    (mainCallTrace n)[n + 2 * i + 1]? = some (CallEvent.communityCall i) := by
  have hlen : (evalPhase n).length = n := by simp [evalPhase]
  refine ⟨?_, ?_, ?_⟩
  · have h1 : i < (evalPhase n).length := by rw [hlen]; omega
    rw [mainCallTrace, List.getElem?_append, if_pos h1]
    exact evalPhase_getElem n i h
  · have h1 : ¬ n + 2 * i < (evalPhase n).length := by rw [hlen]; omega
    rw [mainCallTrace, List.getElem?_append, if_neg h1, hlen]
    have e : n + 2 * i - n = 2 * i := by omega
    rw [e]
    exact (statsPhase_getElem n i h).1
  · have h1 : ¬ n + 2 * i + 1 < (evalPhase n).length := by rw [hlen]; omega
    rw [mainCallTrace, List.getElem?_append, if_neg h1, hlen]
    have e : n + 2 * i + 1 - n = 2 * i + 1 := by omega
    rw [e]
    exact (statsPhase_getElem n i h).2

/-- Claim C4 witness: record 1 of a two-record catalogue. -/
theorem C4_witness :
    (mainCallTrace 2)[1]? = some (CallEvent.evalCall 1) ∧
    (mainCallTrace 2)[2 + 2 * 1]? = some (CallEvent.masterCall 1) ∧
    (mainCallTrace 2)[2 + 2 * 1 + 1]? = some (CallEvent.communityCall 1) :=
  C4_amended_call_positions 2 1 (by omega)

theorem stats_filter_nil (f : OpeningRow → StatsRow)
    (hf : ∀ q, (f q).epd = q.epd) (e : String) :
    ∀ records : List OpeningRow, (∀ q ∈ records, q.epd ≠ e) →
      (records.map f).filter (fun s => s.epd == e) = [] := by
  intro records
  induction records with
  | nil => intro _; rfl
  | cons q rest ih =>
      intro h
      have hb : (q.epd == e) = false :=
        beq_eq_false_iff_ne.mpr (h q (List.mem_cons_self q rest))
      simp only [List.map_cons, List.filter_cons, hf q, hb, Bool.false_eq_true,
        if_false]
      exact ih (fun q' hq' => h q' (List.mem_cons_of_mem q hq'))

theorem stats_filter_single (f : OpeningRow → StatsRow)
    (hf : ∀ q, (f q).epd = q.epd) :
    ∀ records : List OpeningRow, (records.map (fun r => r.epd)).Nodup →
      ∀ l ∈ records, (records.map f).filter (fun s => s.epd == l.epd) = [f l] := by
  intro records
  induction records with
  | nil => intro _ l hl; cases hl
  | cons q rest ih =>
      intro hnd l hl
      rw [List.map_cons, List.nodup_cons] at hnd
      obtain ⟨hq, hnd⟩ := hnd
      rcases List.mem_cons.mp hl with rfl | hl'
      · have hrest : ∀ q' ∈ rest, q'.epd ≠ l.epd := by
          intro q' hq' he
          exact hq (he ▸ List.mem_map_of_mem (fun r => r.epd) hq')
        simp only [List.map_cons, List.filter_cons, hf l, beq_self_eq_true,
          if_true, stats_filter_nil f hf l.epd rest hrest]
      · have hne : q.epd ≠ l.epd := by
          intro he
          exact hq (he ▸ List.mem_map_of_mem (fun r => r.epd) hl')
        have hb : (q.epd == l.epd) = false := beq_eq_false_iff_ne.mpr hne
        simp only [List.map_cons, List.filter_cons, hf q, hb, Bool.false_eq_true,
          if_false]
        exact ih hnd l hl'

theorem leftMerge_map (f : OpeningRow → StatsRow) :
    ∀ (left : List OpeningRow) (right : List StatsRow),
      (∀ l ∈ left, right.filter (fun s => s.epd == l.epd) = [f l]) →
      leftMerge left right = left.map (fun l => (l, some (f l))) := by
  intro left right
  induction left with
  | nil => intro _; rfl
  | cons l rest ih =>
      intro h
      have hih := ih (fun l' hl' => h l' (List.mem_cons_of_mem l hl'))
      unfold leftMerge at hih ⊢
      rw [List.flatMap_cons, h l (List.mem_cons_self l rest), hih]
      simp

/-- Claim C5: when the epds of the input catalogue are pairwise distinct,
left-merging the catalogue with the stats table built from exactly those
epds yields exactly one output row per input record, in the input order,
with no input row dropped or duplicated — for every pair of remote lookup
behaviours, including the ones that return only empty results. -/
theorem C5_left_join_order (records : List OpeningRow)
    (master lichess : String → Dict)
    (h : (records.map (fun r => r.epd)).Nodup) :
    (leftMerge records
        (get_lichess_stats (records.map (fun r => r.epd)) master lichess)).map
      Prod.fst = records := by
  have hmm : get_lichess_stats (records.map (fun r => r.epd)) master lichess
      = records.map (fun r => statsRowFor (master r.epd) (lichess r.epd) r.epd) := by
    simp [get_lichess_stats, List.map_map]
  rw [hmm,
    leftMerge_map (fun r => statsRowFor (master r.epd) (lichess r.epd) r.epd)
      records _ (stats_filter_single _ (fun q => rfl) records h),
    List.map_map,
    show (Prod.fst ∘ fun l : OpeningRow =>
      (l, some (statsRowFor (master l.epd) (lichess l.epd) l.epd))) = id from rfl,
    List.map_id]

/-- Claim C5 witness: a two-record catalogue whose remote lookups both
return empty results for every position. -/
theorem C5_witness :
    (leftMerge sampleCatalogue
        (get_lichess_stats (sampleCatalogue.map (fun r => r.epd))
          (fun _ => []) (fun _ => []))).map Prod.fst = sampleCatalogue :=
  C5_left_join_order sampleCatalogue (fun _ => []) (fun _ => []) (by decide)

theorem splitChar_ne_nil (sep : Char) (l : List Char) : splitChar sep l ≠ [] := by
  cases l with
  | nil => simp [splitChar]
  | cons c rest =>
      rcases h : splitChar sep rest with _ | ⟨t, ts⟩
      · simp [splitChar, h]
      · by_cases hc : c == sep <;> simp [splitChar, h, hc]

theorem splitChar_length (sep : Char) :
    ∀ l : List Char, (splitChar sep l).length = l.count sep + 1 := by
  intro l
  induction l with
  | nil => rfl
  | cons c rest ih =>
      rcases h : splitChar sep rest with _ | ⟨t, ts⟩
      · exact absurd h (splitChar_ne_nil sep rest)
      · rw [h] at ih
        by_cases hc : c == sep
        · have hceq : c = sep := by simpa using hc
          subst hceq
          simp only [splitChar, h, beq_self_eq_true, if_true, List.length_cons,
            List.count_cons]
          simp only [List.length_cons] at ih
          omega
        · have hne : (sep == c) = false := by
            simp only [beq_eq_false_iff_ne]
            intro he
            exact hc (by simp [he])
          simp only [splitChar, h, hc, Bool.false_eq_true, if_false,
            List.length_cons, List.count_cons, hne]
          simp only [List.length_cons] at ih
          omega

/-- Claim C6 counterexample: on the empty move-notation string the code
computes `len("".split(" ")) = 1`, while the number of whitespace-delimited
tokens remaining after stripping move-number tokens is 0 — Python's
`split(" ")` with an explicit separator counts empty parts, so the claimed
equality with the whitespace-delimited token count fails. -/
theorem C6_counterexample :
    count_moves "" = 1 ∧ spec_move_count "" = 0 ∧
      count_moves "" ≠ spec_move_count "" := by
  refine ⟨rfl, rfl, by decide⟩

/-- Claim C6 (amended): `count_moves` equals one plus the number of space
characters remaining after stripping every digit–period–whitespace
occurrence (the count of `split(" ")` parts, which counts empty parts: the
empty string yields 1, not 0); on strings whose remaining tokens are
separated by exactly one space, such as `"1. e4 e5 2. Nf3"`, this is the
whitespace-delimited token count, and that example yields 3. -/
theorem C6_amended_split_count :
    (∀ s : String, count_moves s = (stripMoveNums s.data).count ' ' + 1) ∧
    count_moves "1. e4 e5 2. Nf3" = 3 ∧
    spec_move_count "1. e4 e5 2. Nf3" = 3 := by
  refine ⟨?_, by decide, by decide⟩
  intro s
  exact splitChar_length ' ' (stripMoveNums s.data)

theorem takeUntil_takeUntil (l : List Char) :
    takeUntil ',' (takeUntil ':' l)
      = l.takeWhile (fun c => !(c == ':') && !(c == ',')) := by
  induction l with
  | nil => rfl
  | cons c rest ih =>
      by_cases h1 : c == ':'
      · have hc : c = ':' := by simpa using h1
        subst hc
        simp [takeUntil, List.takeWhile_cons]
      · by_cases h2 : c == ','
        · have hc : c = ',' := by simpa using h2
          subst hc
          simp [takeUntil, List.takeWhile_cons]
        · simp [takeUntil, List.takeWhile_cons, h1, h2, ih]

/-- Claim C7 counterexample: for the opening name `"A: "` the derived
family is `"A"` (the text before the first `:`), and the derived variation
is the empty string even though the full name and the family are not
identical — `"A: ".replace("A: ", "")` deletes the whole string — so the
"empty exactly when identical" biconditional fails. -/
theorem C7_counterexample :
    get_variation "A: " (familyOf "A: ") = "" ∧ "A: " ≠ familyOf "A: " := by
  refine ⟨by decide, by decide⟩

/-- Claim C7 (amended): the derived family equals the text of the name
before its first `:` or `,` (whichever occurs first); the derived
variation is the name with every occurrence of `family + ": "` and then of
`family + ", "` deleted, and it is the empty string whenever the full name
and the family are identical — but it can also be empty for other names
(see the counterexample), so "exactly when" weakens to "whenever".  For a
typical name the deletion strips the family-plus-separator head: the name
`"Sicilian Defense: Najdorf Variation"` yields the variation
`"Najdorf Variation"`. -/
theorem C7_amended_family_variation (name : String) :
    familyOf name = familySpec name ∧
    (name = familyOf name → get_variation name (familyOf name) = "") ∧
    get_variation "Sicilian Defense: Najdorf Variation"
        (familyOf "Sicilian Defense: Najdorf Variation") = "Najdorf Variation" := by
  refine ⟨?_, ?_, by decide⟩
  · simp [familyOf, familySpec, takeUntil_takeUntil]
  · intro h
    rw [← h]
    simp [get_variation]

/-- Claim C7 witness: a name with no separator is its own family and gets
an empty variation. -/
theorem C7_witness :
    familyOf "Pirc" = familySpec "Pirc" ∧
    get_variation "Pirc" (familyOf "Pirc") = "" :=
  ⟨(C7_amended_family_variation "Pirc").1,
   (C7_amended_family_variation "Pirc").2.1 (by decide)⟩
